import Mathlib

/-!
Verification of the castai/logging repository: a shallow embedding of the
delivery client (components/client.go), the batching client
(components batch client), the rate-limit handler (ratelimit_handler.go)
and the export handler (export_handler.go), with theorems settling the
frozen behavioural claims about retry/backoff, batching, draining,
admission control and buffered export.

Durations are modelled in milliseconds as naturals.
-/

namespace Components

/-- Substring test on character lists: does the first list start with the second? -/
def charsStartWith : List Char → List Char → Bool
  | _, [] => true
  | [], _ :: _ => false
  | c :: cs, d :: ds => c == d && charsStartWith cs ds

/-- Substring test on character lists: does the second list occur inside the first? -/
def charsContain : List Char → List Char → Bool
  | [], sub => sub.isEmpty
  | c :: cs, sub => charsStartWith (c :: cs) sub || charsContain cs sub

/-- Does the string s contain sub as a contiguous substring? -/
def strContains (s sub : String) : Bool := charsContain s.data sub.data

namespace APIClient

/-- Outcome of one doIngestRequest call (client.go, doIngestRequest):
either HTTP 200, a non-200 status carrying the response body, or a
transport-level failure from the HTTP client. -/
inductive ReqResult where
  | ok
  | httpErr (statusCode : Nat) (body : String)
  | transportErr (msg : String)
deriving DecidableEq, Repr

/-- Errors IngestLogs can produce (client.go): the httpError type, a
transport failure, the retry-exhaustion wrapper of line 153, and a
context-cancellation error. -/
inductive IngestErr where
  | httpFailure (statusCode : Nat) (body : String)
  | transportFailure (msg : String)
  | retriesExhausted (retries : Nat) (last : IngestErr)
  | ctxCancelled
deriving DecidableEq, Repr

/-- The Error() string of each error, after client.go: the httpError message
is built by doIngestRequest line 209, the exhaustion wrapper by line 153. -/
def errMessage : IngestErr → String
  | .httpFailure code body =>
      "ingest logs failed: expected status 200, got " ++ Nat.repr code ++ ": " ++ body
  | .transportFailure msg => msg
  | .retriesExhausted n last =>
      "ingest logs failed after " ++ Nat.repr n ++ " retries: " ++ errMessage last
  | .ctxCancelled => "context canceled"

/-- Convert a request outcome into the error IngestLogs observes (nil on 200). -/
def reqError : ReqResult → Option IngestErr
  | .ok => none
  | .httpErr code body => some (.httpFailure code body)
  | .transportErr msg => some (.transportFailure msg)

/-- shouldRetry from client.go lines 156-165: refuse once the attempt index
has reached maxRetries; an httpError is retried only for status >= 500;
any other error is retried. -/
def shouldRetry (err : IngestErr) (attempt maxRetries : Nat) : Bool :=
  if attempt ≥ maxRetries then false
  else
    match err with
    | .httpFailure statusCode _ => statusCode ≥ 500
    | _ => true

/-- The backoff wait before a retry attempt, from client.go lines 132-135:
backoff * time.Duration(1<<attempt-1) with backoff = 100ms. Go operator
precedence binds the shift tighter than the subtraction, so the factor is
(1 <<< attempt) - 1, i.e. 2 ^ attempt - 1; the result is capped at
MaxRetryBackoffWait. -/
def waitTime (maxWait attempt : Nat) : Nat :=
  let w := 100 * (2 ^ attempt - 1)
  if w > maxWait then maxWait else w

/-- Does the caller context get cancelled before the backoff timer that
started at time elapsed and lasts w fires (the select of lines 136-140)? -/
def cancelFires (cancelAt : Option Nat) (elapsed w : Nat) : Bool :=
  match cancelAt with
  | none => false
  | some c => c < elapsed + w

/-- Trace of one IngestLogs call: how many HTTP attempts were made, the
backoff waits performed before attempts 1, 2, ..., and the returned error
(none on success). -/
structure IngestTrace where
  attempts : Nat
  waits : List Nat
  result : Option IngestErr
deriving DecidableEq, Repr

/-- The retry loop of IngestLogs, client.go lines 130-153. fuel counts the
loop iterations still allowed (maxRetries + 1 - attempt); attempt is the
loop index; elapsed is the time spent in backoff waits so far; waits
accumulates the performed waits in reverse; lastErr mirrors the Go lastErr
variable. resp gives the outcome of the HTTP request of each attempt. -/
def ingestLoop (resp : Nat → ReqResult) (maxRetries maxWait : Nat) (cancelAt : Option Nat) :
    Nat → Nat → Nat → List Nat → Option IngestErr → IngestTrace
  | 0, attempt, _elapsed, waits, lastErr =>
      { attempts := attempt, waits := waits.reverse,
        result := some (.retriesExhausted maxRetries (lastErr.getD (.transportFailure ""))) }
  | fuel + 1, attempt, elapsed, waits, lastErr =>
      if 0 < attempt ∧ cancelFires cancelAt elapsed (waitTime maxWait attempt) = true then
        { attempts := attempt, waits := waits.reverse, result := some .ctxCancelled }
      else
        let elapsed' := if 0 < attempt then elapsed + waitTime maxWait attempt else elapsed
        let waits' := if 0 < attempt then waitTime maxWait attempt :: waits else waits
        match reqError (resp attempt) with
        | none => { attempts := attempt + 1, waits := waits'.reverse, result := none }
        | some e =>
            if shouldRetry e attempt maxRetries then
              ingestLoop resp maxRetries maxWait cancelAt fuel (attempt + 1) elapsed' waits' (some e)
            else
              { attempts := attempt + 1, waits := waits'.reverse, result := some e }

/-- IngestLogs of client.go lines 113-154, abstracted over the remote
responses: maxRetriesCfg is the configured value (an int, possibly
negative), clamped to 0 by lines 127-129; the loop runs attempts
0..maxRetries. -/
def IngestLogs (resp : Nat → ReqResult) (maxRetriesCfg : Int) (maxWait : Nat)
    (cancelAt : Option Nat) : IngestTrace :=
  let maxRetries := (if maxRetriesCfg < 0 then 0 else maxRetriesCfg).toNat
  ingestLoop resp maxRetries maxWait cancelAt (maxRetries + 1) 0 0 [] none

/-- The retry-relevant part of the client Config (client.go lines 55-64):
MaxRetries (an int, -1 documented as no retries) and MaxRetryBackoffWait
in milliseconds. -/
structure Config where
  maxRetries : Int
  maxRetryBackoffWait : Nat
deriving DecidableEq, Repr

/-- The defaulting performed by NewAPIClient, client.go lines 77-82:
MaxRetries == 0 becomes 3, MaxRetryBackoffWait == 0 becomes 5s. -/
def NewAPIClient (cfg : Config) : Config :=
  let c := if cfg.maxRetries = 0 then { cfg with maxRetries := 3 } else cfg
  if c.maxRetryBackoffWait = 0 then { c with maxRetryBackoffWait := 5000 } else c

/-- IngestLogs as called on a client built by NewAPIClient from cfg. -/
def clientIngestLogs (cfg : Config) (resp : Nat → ReqResult) (cancelAt : Option Nat) :
    IngestTrace :=
  IngestLogs resp (NewAPIClient cfg).maxRetries (NewAPIClient cfg).maxRetryBackoffWait cancelAt

/-- Responses 500, 500 then 200 from the remote endpoint. -/
def resp500x2then200 : Nat → ReqResult :=
  fun n => if n < 2 then .httpErr 500 "server error" else .ok

/-- The remote endpoint always answers 400. -/
def respAll400 : Nat → ReqResult := fun _ => .httpErr 400 "bad request"

/-- The remote endpoint always answers 500. -/
def respAll500 : Nat → ReqResult := fun _ => .httpErr 500 "server error"

/-- reqError never produces the retry-exhaustion wrapper: doIngestRequest
only fails with an httpError or a transport error. -/
theorem reqError_ne_exhausted (r : ReqResult) (n : Nat) (last : IngestErr) :
    reqError r ≠ some (.retriesExhausted n last) := by
  cases r <;> simp [reqError]

/-- If the caller context is cancelled before the backoff timer of the
current retry attempt fires, the loop returns the cancellation error at
once, with no further HTTP attempt and no further wait recorded. -/
theorem ingestLoop_cancel_step (resp : Nat → ReqResult) (mr mw c : Nat)
    (fuel attempt elapsed : Nat) (waits : List Nat) (lastErr : Option IngestErr)
    (hf : 0 < fuel) (ha : 0 < attempt) (hc : c < elapsed + waitTime mw attempt) :
    ingestLoop resp mr mw (some c) fuel attempt elapsed waits lastErr =
      ⟨attempt, waits.reverse, some .ctxCancelled⟩ := by
  obtain ⟨f, rfl⟩ : ∃ f, fuel = f + 1 := ⟨fuel - 1, by omega⟩
  simp only [ingestLoop]
  rw [if_pos]
  exact ⟨ha, by simp [cancelFires, hc]⟩

/-- The retry loop never returns the line-153 exhaustion wrapper: on the
final allowed attempt shouldRetry already refuses (attempt has reached
maxRetries), so the raw last error is returned and the loop exit at line
153 is dead code. Invariant: attempt + fuel = maxRetries + 1. -/
theorem ingestLoop_ne_exhausted (resp : Nat → ReqResult) (mr mw : Nat) (cAt : Option Nat) :
    ∀ (fuel attempt elapsed : Nat) (waits : List Nat) (lastErr : Option IngestErr),
      attempt + fuel = mr + 1 → 0 < fuel → ∀ (n : Nat) (last : IngestErr),
      (ingestLoop resp mr mw cAt fuel attempt elapsed waits lastErr).result ≠
        some (.retriesExhausted n last) := by
  intro fuel
  induction fuel with
  | zero => intro attempt elapsed waits lastErr _ h; omega
  | succ f ih =>
    intro attempt elapsed waits lastErr hsum _ n last
    simp only [ingestLoop]
    split
    · simp
    · cases hr : reqError (resp attempt) with
      | none => simp
      | some e =>
        simp only []
        by_cases hs : shouldRetry e attempt mr = true
        · rw [if_pos hs]
          have hlt : attempt < mr := by
            by_contra hge
            simp [shouldRetry, Nat.le_of_not_lt hge] at hs
          exact ih (attempt + 1) _ _ (some e) (by omega) (by omega) n last
        · rw [if_neg hs]
          simp only
          intro hcontra
          have : reqError (resp attempt) = some (.retriesExhausted n last) := by
            rw [hr]; exact congrArg some (Option.some.inj hcontra)
          exact reqError_ne_exhausted _ _ _ this

/-- Claim C1: with maxRetries=3 the response sequence [500, 500, 200]
yields exactly 3 attempts and success; [400] yields exactly 1 attempt and
a terminal error whose message contains "400"; with maxRetries=2 the
sequence [500, 500, 500] yields exactly 3 attempts and an error whose
message contains "500"; a failed attempt is retried only when retry budget
remains and the failure is a transport error or a 5xx response; a 4xx
response is returned immediately, on the first attempt, without consuming
retry budget. -/
theorem claim_c1_retry_policy :
    ((IngestLogs resp500x2then200 3 5000 none).attempts = 3
      ∧ (IngestLogs resp500x2then200 3 5000 none).result = none)
  ∧ ((IngestLogs respAll400 3 5000 none).attempts = 1
      ∧ (IngestLogs respAll400 3 5000 none).result = some (.httpFailure 400 "bad request")
      ∧ strContains (errMessage (.httpFailure 400 "bad request")) "400" = true)
  ∧ ((IngestLogs respAll500 2 5000 none).attempts = 3
      ∧ (IngestLogs respAll500 2 5000 none).result = some (.httpFailure 500 "server error")
      ∧ strContains (errMessage (.httpFailure 500 "server error")) "500" = true)
  ∧ (∀ statusCode body attempt m,
        shouldRetry (.httpFailure statusCode body) attempt m = true
          ↔ attempt < m ∧ 500 ≤ statusCode)
  ∧ (∀ msg attempt m, shouldRetry (.transportFailure msg) attempt m = true ↔ attempt < m)
  ∧ (∀ resp mrCfg mw statusCode body, resp 0 = ReqResult.httpErr statusCode body →
        400 ≤ statusCode → statusCode < 500 →
        IngestLogs resp mrCfg mw none = ⟨1, [], some (.httpFailure statusCode body)⟩) := by
  refine ⟨by decide, by decide, by decide, ?_, ?_, ?_⟩
  · intro statusCode body attempt m
    simp only [shouldRetry]
    split
    · simp; omega
    · simp; omega
  · intro msg attempt m
    simp only [shouldRetry]
    split
    · simp; omega
    · simp; omega
  · intro resp mrCfg mw statusCode body h0 h4 h5
    have hns : ¬ (500 ≤ statusCode) := by omega
    simp only [IngestLogs, ingestLoop, Nat.lt_irrefl, false_and, if_false, h0, reqError,
      shouldRetry, Nat.zero_le, Nat.le_refl, ge_iff_le, hns]
    simp [shouldRetry, hns]

/-- Witness for C1: a 4xx on the first attempt returns immediately with
that error, for maxRetries = 5. -/
theorem claim_c1_retry_policy_witness :
    IngestLogs respAll400 5 5000 none = ⟨1, [], some (.httpFailure 400 "bad request")⟩ :=
  claim_c1_retry_policy.2.2.2.2.2 respAll400 5 5000 400 "bad request" rfl
    (by decide) (by decide)

/-- Counterexample to C2: with every response 500, maxRetries 3 and a
large cap, the backoff wait before retry attempt 2 is 300ms, not the
100ms * 2^(2-1) = 200ms the claim predicts: the Go expression
backoff * time.Duration(1<<attempt-1) parses as (1<<attempt)-1. -/
theorem claim_c2_counterexample :
    (IngestLogs respAll500 3 999999 none).waits[1]? = some 300
  ∧ min (100 * 2 ^ (2 - 1)) 999999 = 200
  ∧ ¬ (IngestLogs respAll500 3 999999 none).waits[1]?
        = some (min (100 * 2 ^ (2 - 1)) 999999) := by decide

/-- Amended C2: the backoff wait before retry attempt k is
100ms * (2^k - 1), capped at MaxRetryBackoffWait; cancellation of the
caller context during a backoff wait makes IngestLogs return the
cancellation error immediately. -/
theorem claim_c2_amended :
    (∀ maxWait k, 1 ≤ k → waitTime maxWait k = min (100 * (2 ^ k - 1)) maxWait)
  ∧ (∀ (resp : Nat → ReqResult) (mr mw c fuel attempt elapsed : Nat)
        (waits : List Nat) (lastErr : Option IngestErr), 0 < fuel → 0 < attempt →
        c < elapsed + waitTime mw attempt →
        ingestLoop resp mr mw (some c) fuel attempt elapsed waits lastErr =
          ⟨attempt, waits.reverse, some .ctxCancelled⟩)
  ∧ ((IngestLogs respAll500 3 5000 (some 50)).result = some .ctxCancelled
      ∧ (IngestLogs respAll500 3 5000 (some 50)).attempts = 1) := by
  refine ⟨?_, ?_, by decide⟩
  · intro maxWait k _
    simp only [waitTime]
    split <;> omega
  · intro resp mr mw c fuel attempt elapsed waits lastErr hf ha hc
    exact ingestLoop_cancel_step resp mr mw c fuel attempt elapsed waits lastErr hf ha hc

/-- Witness for the amended C2: context cancelled at time 0, before the
first backoff wait completes, aborts the loop with the cancellation
error. -/
theorem claim_c2_amended_witness :
    ingestLoop respAll500 3 5000 (some 0) 1 1 0 [] none = ⟨1, [], some .ctxCancelled⟩ :=
  claim_c2_amended.2.1 respAll500 3 5000 0 1 1 0 [] none (by decide) (by decide) (by decide)

/-- Counterexample to C6: a zero MaxRetries is not a disable sentinel;
NewAPIClient replaces 0 by the default 3, so a persistently failing
retryable request makes 4 attempts, not 1. -/
theorem claim_c6_counterexample :
    (clientIngestLogs ⟨0, 0⟩ respAll500 none).attempts = 4
  ∧ ¬ (clientIngestLogs ⟨0, 0⟩ respAll500 none).attempts = 1 := by decide

/-- Amended C6: a negative MaxRetries disables retries (exactly one
attempt, its outcome returned directly); a zero (unset) MaxRetries
defaults to 3 retries; with that default a persistently failing retryable
request makes 4 attempts and the final error is the last underlying
failure itself: the error wrapping the retry count (client.go line 153) is
unreachable. -/
theorem claim_c6_amended :
    (∀ (cfg : Config) (resp : Nat → ReqResult) (cAt : Option Nat), cfg.maxRetries < 0 →
        clientIngestLogs cfg resp cAt = ⟨1, [], reqError (resp 0)⟩)
  ∧ (∀ w, (NewAPIClient ⟨0, w⟩).maxRetries = 3)
  ∧ (clientIngestLogs ⟨0, 0⟩ respAll500 none =
        ⟨4, [100, 300, 700], some (.httpFailure 500 "server error")⟩)
  ∧ (∀ (resp : Nat → ReqResult) (mrCfg : Int) (mw : Nat) (cAt : Option Nat)
        (n : Nat) (last : IngestErr),
        (IngestLogs resp mrCfg mw cAt).result ≠ some (.retriesExhausted n last)) := by
  refine ⟨?_, ?_, by decide, ?_⟩
  · intro cfg resp cAt h
    have hne : ¬ cfg.maxRetries = 0 := by omega
    have hlt : (NewAPIClient cfg).maxRetries < 0 := by
      simp [NewAPIClient, hne]
      split <;> simp [h]
    simp only [clientIngestLogs, IngestLogs, hlt, if_pos, Int.toNat_zero]
    simp only [ingestLoop, Nat.lt_irrefl, false_and, if_false]
    cases hr : reqError (resp 0) with
    | none => simp
    | some e => simp [shouldRetry]
  · intro w
    simp [NewAPIClient]
    split <;> simp
  · intro resp mrCfg mw cAt n last
    simp only [IngestLogs]
    exact ingestLoop_ne_exhausted resp _ mw cAt _ 0 0 [] none (by omega) (by omega) n last

/-- Witness for the amended C6: MaxRetries = -1 makes exactly one attempt
and returns its outcome directly. -/
theorem claim_c6_amended_witness :
    clientIngestLogs ⟨-1, 0⟩ respAll500 none = ⟨1, [], reqError (respAll500 0)⟩ :=
  claim_c6_amended.1 ⟨-1, 0⟩ respAll500 none (by decide)

end APIClient

/-- A wire-ready log entry (client.go lines 34-39); time in milliseconds. -/
structure Entry where
  level : String
  message : String
  time : Nat
  fields : List (String × String)
deriving DecidableEq, Repr

namespace BatchClient

/-- Which select arm of the run loop caused a flush: the size trigger, the
flush-interval ticker, or the shutdown drain. -/
inductive FlushCause where
  | bySize
  | byTimer
  | byShutdown
deriving DecidableEq, Repr

/-- The context a flush passes to the delivery client: the run loop's own
caller context, or the fresh context.WithTimeout(Background, ...) made at
shutdown. -/
inductive FlushCtx where
  | caller
  | freshTimeout (ms : Nat)
deriving DecidableEq, Repr

/-- One delivery call performed by flush: its trigger, the context it was
given, and the batch of entries handed to the delivery client. -/
structure FlushRec where
  cause : FlushCause
  ctx : FlushCtx
  batch : List Entry
deriving DecidableEq, Repr

/-- flush (batch client, lines 130-137): an empty accumulator is a no-op;
otherwise the whole slice is handed to the delivery client in one call
(the delivery outcome is only logged, never escalated). -/
def flush (flushed : List FlushRec) (cause : FlushCause) (ctx : FlushCtx)
    (batch : List Entry) : List FlushRec :=
  if batch.length = 0 then flushed else flushed ++ [⟨cause, ctx, batch⟩]

/-- drainBuffer (lines 116-128): non-blocking reads until the channel is
empty, appending each entry with a non-empty message to the accumulator. -/
def drainBuffer : List Entry → List Entry → List Entry
  | [], entries => entries
  | e :: rest, entries =>
      if 0 < e.message.length then drainBuffer rest (entries ++ [e])
      else drainBuffer rest entries

/-- State of the run loop: the ingress channel contents (FIFO), the
in-progress accumulator, the flushes performed so far, and the entries
successfully placed into the channel so far. -/
structure RunState where
  buffer : List Entry
  acc : List Entry
  flushed : List FlushRec
  enqueued : List Entry
deriving DecidableEq, Repr

/-- The initial state of a freshly started batch client. -/
def initState : RunState := ⟨[], [], [], []⟩

/-- One resolution of the run loop's select (lines 91-113), plus producer
activity: an entry is placed into the channel by IngestLogs, the worker
receives one entry, the flush ticker fires, or the caller context is
cancelled. -/
inductive RunEvent where
  | enqueue (e : Entry)
  | recv
  | tick
  | cancel
deriving DecidableEq, Repr

/-- Result of the run loop: the flushes performed, the entries successfully
enqueued over the lifetime, whether the loop returned the cancellation
error, and the final accumulator and channel contents. -/
structure RunResult where
  flushed : List FlushRec
  enqueued : List Entry
  cancelled : Bool
  acc : List Entry
  buffer : List Entry
deriving DecidableEq, Repr

/-- The run loop (lines 83-114) driven by an explicit event schedule. An
enqueue only succeeds while the channel holds fewer than 2*batchSize
entries (the capacity set in NewBatchClient line 55); a received entry
with an empty message is skipped; reaching batchSize flushes immediately;
a tick flushes the accumulator; cancellation drains the channel into the
accumulator, performs one final flush under a fresh 10s-timeout context,
and returns the cancellation error. -/
def run (batchSize : Nat) : List RunEvent → RunState → RunResult
  | [], s => ⟨s.flushed, s.enqueued, false, s.acc, s.buffer⟩
  | ev :: evs, s =>
      match ev with
      | .enqueue e =>
          if s.buffer.length < 2 * batchSize then
            run batchSize evs
              { s with buffer := s.buffer ++ [e], enqueued := s.enqueued ++ [e] }
          else
            run batchSize evs s
      | .recv =>
          match s.buffer with
          | [] => run batchSize evs s
          | e :: rest =>
              if e.message.length = 0 then
                run batchSize evs { s with buffer := rest }
              else
                let acc' := s.acc ++ [e]
                if batchSize ≤ acc'.length then
                  run batchSize evs
                    { s with buffer := rest, acc := [],
                             flushed := flush s.flushed .bySize .caller acc' }
                else
                  run batchSize evs { s with buffer := rest, acc := acc' }
      | .tick =>
          run batchSize evs
            { s with acc := [], flushed := flush s.flushed .byTimer .caller s.acc }
      | .cancel =>
          ⟨flush s.flushed .byShutdown (.freshTimeout 10000) (drainBuffer s.buffer s.acc),
           s.enqueued, true, [], []⟩

/-- Entries with a non-empty message: the ones the run loop accepts and
drainBuffer keeps. -/
def filterMsg (l : List Entry) : List Entry :=
  l.filter fun e => decide (0 < e.message.length)

/-- All entries handed to the delivery client, in delivery order. -/
def joinFlushed (l : List FlushRec) : List Entry :=
  (l.map fun r => r.batch).flatten

/-- The producer schedule that enqueues each entry and lets the worker
receive it at once. -/
def pump : List Entry → List RunEvent
  | [] => []
  | e :: rest => .enqueue e :: .recv :: pump rest

/-- The batching the run loop performs on a stream of accepted entries
with no ticker event: full batches emitted each time the accumulator
reaches batchSize, plus the remaining partial accumulator. -/
def sizeBatches (batchSize : Nat) : List Entry → List Entry → List (List Entry) × List Entry
  | acc, [] => ([], acc)
  | acc, e :: rest =>
      let acc' := acc ++ [e]
      if batchSize ≤ acc'.length then
        let p := sizeBatches batchSize [] rest
        (acc' :: p.1, p.2)
      else sizeBatches batchSize acc' rest

/-- drainBuffer keeps exactly the non-empty-message entries of the channel,
appended in FIFO order to the accumulator. -/
theorem drainBuffer_eq : ∀ (buf acc : List Entry), drainBuffer buf acc = acc ++ filterMsg buf := by
  intro buf
  induction buf with
  | nil => intro acc; simp [drainBuffer, filterMsg]
  | cons e rest ih =>
    intro acc
    by_cases h : 0 < e.message.length
    · rw [drainBuffer, if_pos h, ih]
      simp [filterMsg, List.filter_cons, h]
    · rw [drainBuffer, if_neg h, ih]
      simp [filterMsg, List.filter_cons, h]

/-- flush appends exactly the flushed batch to the delivered stream (and
nothing when the batch is empty). -/
theorem flush_join (f : List FlushRec) (c : FlushCause) (x : FlushCtx) (b : List Entry) :
    joinFlushed (flush f c x b) = joinFlushed f ++ b := by
  simp only [flush]
  split
  · next h => simp [joinFlushed, List.length_eq_zero.mp h]
  · simp [joinFlushed]

/-- A schedule ending in a cancellation makes run return the cancellation
error. -/
theorem run_cancel_last (B : Nat) :
    ∀ (evs : List RunEvent) (s : RunState),
      (run B (evs ++ [RunEvent.cancel]) s).cancelled = true := by
  intro evs
  induction evs with
  | nil => intro s; simp [run]
  | cons ev rest ih =>
    intro s
    cases ev with
    | enqueue e =>
      simp only [List.cons_append, run]
      split <;> apply ih
    | recv =>
      simp only [List.cons_append, run]
      cases s.buffer with
      | nil => apply ih
      | cons e r =>
        simp only []
        split
        · apply ih
        · split <;> apply ih
    | tick => simp only [List.cons_append, run]; apply ih
    | cancel => simp [run]

/-- The entries alive in a run-loop state: already delivered, accumulated,
or sitting in the channel with a non-empty message. -/
def live (s : RunState) : List Entry := joinFlushed s.flushed ++ s.acc ++ filterMsg s.buffer

/-- The same notion on a run result. -/
def rlive (r : RunResult) : List Entry := joinFlushed r.flushed ++ r.acc ++ filterMsg r.buffer

/-- Conservation of entries by the run loop: the entries newly enqueued
during the schedule are exactly what is added to the alive entries, and a
cancelled run ends with an empty accumulator and a drained channel. -/
theorem run_conservation (B : Nat) :
    ∀ (evs : List RunEvent) (s : RunState), ∃ δ,
      (run B evs s).enqueued = s.enqueued ++ δ
      ∧ rlive (run B evs s) = live s ++ filterMsg δ
      ∧ ((run B evs s).cancelled = true → (run B evs s).acc = [] ∧ (run B evs s).buffer = []) := by
  intro evs
  induction evs with
  | nil =>
    intro s
    exact ⟨[], by simp [run], by simp [run, rlive, live, filterMsg], by simp [run]⟩
  | cons ev rest ih =>
    intro s
    cases ev with
    | enqueue e =>
      simp only [run]
      split
      · obtain ⟨δ, h1, h2, h3⟩ := ih { s with buffer := s.buffer ++ [e], enqueued := s.enqueued ++ [e] }
        refine ⟨e :: δ, ?_, ?_, h3⟩
        · rw [h1]; simp
        · rw [h2]
          simp [live, filterMsg, List.filter_append, List.filter_cons]
          split <;> simp
      · exact ih s
    | recv =>
      simp only [run]
      cases hb : s.buffer with
      | nil => exact ih s
      | cons e r =>
        simp only []
        split
        · next hmsg =>
          obtain ⟨δ, h1, h2, h3⟩ := ih { s with buffer := r }
          refine ⟨δ, h1, ?_, h3⟩
          rw [h2]
          have : filterMsg (e :: r) = filterMsg r := by
            simp [filterMsg, List.filter_cons, hmsg]
          simp [live, hb, this]
        · next hmsg =>
          have hfm : filterMsg (e :: r) = e :: filterMsg r := by
            simp [filterMsg, List.filter_cons]
            omega
          split
          · obtain ⟨δ, h1, h2, h3⟩ := ih { s with buffer := r, acc := [], flushed := flush s.flushed .bySize .caller (s.acc ++ [e]) }
            refine ⟨δ, h1, ?_, h3⟩
            rw [h2]
            simp [live, hb, hfm, flush_join]
          · obtain ⟨δ, h1, h2, h3⟩ := ih { s with buffer := r, acc := s.acc ++ [e] }
            refine ⟨δ, h1, ?_, h3⟩
            rw [h2]
            simp [live, hb, hfm]
    | tick =>
      simp only [run]
      obtain ⟨δ, h1, h2, h3⟩ := ih { s with acc := [], flushed := flush s.flushed .byTimer .caller s.acc }
      refine ⟨δ, h1, ?_, h3⟩
      rw [h2]
      simp [live, flush_join]
    | cancel =>
      refine ⟨[], by simp [run], ?_, by simp [run]⟩
      simp [run, rlive, live, filterMsg, flush_join, drainBuffer_eq]

/-- Every flush record a run can produce, given a sane starting state:
non-empty batch; size-triggered flushes are exactly batchSize under the
caller context; timer flushes are smaller than batchSize; the single
shutdown flush is bounded by 3*batchSize - 1 and uses the fresh 10s
context. -/
def flushRecOK (B : Nat) (rec : FlushRec) : Prop :=
  0 < rec.batch.length
  ∧ (rec.cause = .bySize → rec.batch.length = B ∧ rec.ctx = .caller)
  ∧ (rec.cause = .byTimer → rec.batch.length < B ∧ rec.ctx = .caller)
  ∧ (rec.cause = .byShutdown → rec.batch.length ≤ 3 * B - 1 ∧ rec.ctx = .freshTimeout 10000)

/-- A full-size batch flushed by the size trigger satisfies the invariant. -/
theorem flushRecOK_bySize (B : Nat) (b : List Entry) (hB : 1 ≤ B) (h : b.length = B) :
    flushRecOK B ⟨.bySize, .caller, b⟩ := by
  simp [flushRecOK]
  omega

/-- A below-size batch flushed by the ticker satisfies the invariant. -/
theorem flushRecOK_byTimer (B : Nat) (b : List Entry) (h0 : 0 < b.length) (h : b.length < B) :
    flushRecOK B ⟨.byTimer, .caller, b⟩ := by
  simp [flushRecOK]
  omega

/-- A batch flushed at shutdown under the fresh context satisfies the
invariant if it is bounded by 3 * batchSize - 1. -/
theorem flushRecOK_byShutdown (B : Nat) (b : List Entry) (h0 : 0 < b.length)
    (h : b.length ≤ 3 * B - 1) : flushRecOK B ⟨.byShutdown, .freshTimeout 10000, b⟩ := by
  simp [flushRecOK]
  omega

/-- flush preserves the invariant when the batch it may add satisfies it. -/
theorem flush_recOK (B : Nat) (f : List FlushRec) (c : FlushCause) (x : FlushCtx)
    (b : List Entry) (hf : ∀ rec ∈ f, flushRecOK B rec)
    (hnew : 0 < b.length → flushRecOK B ⟨c, x, b⟩) :
    ∀ rec ∈ flush f c x b, flushRecOK B rec := by
  intro rec hrec
  simp only [flush] at hrec
  split at hrec
  · exact hf rec hrec
  · next hne =>
    rcases List.mem_append.mp hrec with hold | hnewmem
    · exact hf rec hold
    · have : rec = ⟨c, x, b⟩ := by simpa using hnewmem
      subst this
      exact hnew (by omega)

/-- The run loop preserves the flush-record invariant from any state whose
accumulator is below batchSize and whose channel is within capacity. -/
theorem run_flushRecOK (B : Nat) (hB : 1 ≤ B) :
    ∀ (evs : List RunEvent) (s : RunState),
      s.acc.length < B → s.buffer.length ≤ 2 * B →
      (∀ rec ∈ s.flushed, flushRecOK B rec) →
      ∀ rec ∈ (run B evs s).flushed, flushRecOK B rec := by
  intro evs
  induction evs with
  | nil => intro s ha hb hf; simpa [run] using hf
  | cons ev rest ih =>
    intro s ha hb hf
    cases ev with
    | enqueue e =>
      simp only [run]
      split
      · next hcap => exact ih _ (by simpa using ha) (by simp; omega) (by simpa using hf)
      · exact ih s ha hb hf
    | recv =>
      simp only [run]
      cases hbuf : s.buffer with
      | nil => exact ih s ha hb hf
      | cons e r =>
        have hr : r.length ≤ 2 * B := by
          have := hb; rw [hbuf] at this; simp at this; omega
        simp only []
        split
        · exact ih _ (by simpa using ha) (by simpa using hr) (by simpa using hf)
        · split
          · next hsz =>
            refine ih _ (by simp; omega) (by simpa using hr) ?_
            refine flush_recOK B _ _ _ _ hf fun _ => ?_
            exact flushRecOK_bySize B _ hB (by simp at hsz ⊢; omega)
          · next hsz =>
            exact ih _ (by simp at hsz ⊢; omega) (by simpa using hr) (by simpa using hf)
    | tick =>
      simp only [run]
      refine ih _ (by simp; omega) (by simpa using hb) ?_
      refine flush_recOK B _ _ _ _ hf fun h0 => ?_
      exact flushRecOK_byTimer B _ h0 ha
    | cancel =>
      intro rec hrec
      simp only [run] at hrec
      refine flush_recOK B _ _ _ _ hf (fun h0 => ?_) rec hrec
      refine flushRecOK_byShutdown B _ h0 ?_
      rw [drainBuffer_eq]
      have hfl : (filterMsg s.buffer).length ≤ s.buffer.length := List.length_filter_le _ _
      simp
      omega

/-- Only the shutdown drain creates a flush under the fresh bounded
context; equivalently every shutdown flush uses it. -/
def shutdownCtxOK (rec : FlushRec) : Prop :=
  rec.cause = .byShutdown → rec.ctx = .freshTimeout 10000

/-- Every flush record produced by a run whose starting records satisfy
shutdownCtxOK satisfies it too. -/
theorem run_shutdownCtx (B : Nat) :
    ∀ (evs : List RunEvent) (s : RunState),
      (∀ rec ∈ s.flushed, shutdownCtxOK rec) →
      ∀ rec ∈ (run B evs s).flushed, shutdownCtxOK rec := by
  intro evs
  induction evs with
  | nil => intro s hf; simpa [run] using hf
  | cons ev rest ih =>
    intro s hf
    have hstep : ∀ (c : FlushCause) (x : FlushCtx) (b : List Entry),
        (c = .byShutdown → x = .freshTimeout 10000) →
        ∀ rec ∈ flush s.flushed c x b, shutdownCtxOK rec := by
      intro c x b hcx rec hrec
      simp only [flush] at hrec
      split at hrec
      · exact hf rec hrec
      · rcases List.mem_append.mp hrec with hold | hnew
        · exact hf rec hold
        · have : rec = ⟨c, x, b⟩ := by simpa using hnew
          subst this
          exact hcx
    cases ev with
    | enqueue e =>
      simp only [run]
      split
      · exact ih _ (by simpa using hf)
      · exact ih s hf
    | recv =>
      simp only [run]
      cases s.buffer with
      | nil => exact ih s hf
      | cons e r =>
        simp only []
        split
        · exact ih _ (by simpa using hf)
        · split
          · exact ih _ (by simpa using hstep .bySize .caller _ (fun hcd => by cases hcd))
          · exact ih _ (by simpa using hf)
    | tick =>
      exact ih _ (by simpa using hstep .byTimer .caller _ (fun hcd => by cases hcd))
    | cancel =>
      intro rec hrec
      simp only [run] at hrec
      exact hstep .byShutdown (.freshTimeout 10000) _ (fun _ => rfl) rec hrec

/-- joinFlushed distributes over append. -/
theorem joinFlushed_append (a b : List FlushRec) :
    joinFlushed (a ++ b) = joinFlushed a ++ joinFlushed b := by
  simp [joinFlushed]

/-- The deliveries of a list of size-triggered flush records are exactly
the flattened batches. -/
theorem joinFlushed_map_bySize (bs : List (List Entry)) :
    joinFlushed (bs.map fun bt => ⟨.bySize, .caller, bt⟩) = bs.flatten := by
  induction bs with
  | nil => simp [joinFlushed]
  | cons b rest ih =>
    simp only [joinFlushed, List.map_cons, List.flatten_cons] at ih ⊢
    rw [ih]

/-- The deliveries of the optional shutdown record are exactly the
remaining batch. -/
theorem joinFlushed_shutdown_tail (R : List Entry) :
    joinFlushed (if R.length = 0 then []
      else [⟨.byShutdown, .freshTimeout 10000, R⟩]) = R := by
  split
  · next hz => simp [joinFlushed, List.length_eq_zero.mp hz]
  · simp [joinFlushed]

/-- On the enqueue-then-receive schedule with no ticker event, the run
loop performs exactly the size-triggered flushes computed by sizeBatches
followed by one shutdown flush of the remaining partial batch. -/
theorem run_pump (B : Nat) (hB : 1 ≤ B) :
    ∀ (l : List Entry) (s : RunState), s.buffer = [] → s.acc.length < B →
      (∀ e ∈ l, 0 < e.message.length) →
      run B (pump l ++ [RunEvent.cancel]) s =
        ⟨s.flushed ++ ((sizeBatches B s.acc l).1.map fun bt => ⟨.bySize, .caller, bt⟩)
           ++ (if (sizeBatches B s.acc l).2.length = 0 then []
               else [⟨.byShutdown, .freshTimeout 10000, (sizeBatches B s.acc l).2⟩]),
         s.enqueued ++ l, true, [], []⟩ := by
  intro l
  induction l with
  | nil =>
    intro s hbuf hacc _
    simp [pump, run, sizeBatches, flush, hbuf, drainBuffer_eq, filterMsg]
    split <;> simp
  | cons e rest ih =>
    intro s hbuf hacc hmsg
    have hcap : s.buffer.length < 2 * B := by rw [hbuf]; simp; omega
    have hm : ¬ e.message.length = 0 := by
      have := hmsg e (by simp)
      omega
    simp only [pump, List.cons_append, run, if_pos hcap]
    simp only [hbuf, List.nil_append, List.append_eq]
    rw [if_neg hm]
    by_cases hsz : B ≤ (s.acc ++ [e]).length
    · rw [if_pos hsz]
      rw [ih { s with buffer := [], acc := [], flushed := flush s.flushed .bySize .caller (s.acc ++ [e]), enqueued := s.enqueued ++ [e] } rfl (by simpa using hB) (fun x hx => hmsg x (by simp [hx]))]
      simp only [sizeBatches, if_pos hsz]
      rw [flush, if_neg (by simp)]
      simp
    · rw [if_neg hsz]
      rw [ih { s with buffer := [], acc := s.acc ++ [e], enqueued := s.enqueued ++ [e] } rfl (by simp at hsz ⊢; omega) (fun x hx => hmsg x (by simp [hx]))]
      simp only [sizeBatches, if_neg hsz]
      simp

/-- The size-triggered batches and the remainder together are exactly the
accumulator followed by the processed entries, in order. -/
theorem sizeBatches_flatten (B : Nat) :
    ∀ (l acc : List Entry),
      (sizeBatches B acc l).1.flatten ++ (sizeBatches B acc l).2 = acc ++ l := by
  intro l
  induction l with
  | nil => intro acc; simp [sizeBatches]
  | cons e rest ih =>
    intro acc
    simp only [sizeBatches]
    split
    · simp [ih []]
    · rw [ih (acc ++ [e])]
      simp

/-- Every size-triggered batch has length exactly batchSize. -/
theorem sizeBatches_full_len (B : Nat) :
    ∀ (l acc : List Entry), acc.length < B →
      ∀ bt ∈ (sizeBatches B acc l).1, bt.length = B := by
  intro l
  induction l with
  | nil => intro acc _ bt hbt; simp [sizeBatches] at hbt
  | cons e rest ih =>
    intro acc hacc bt hbt
    simp only [sizeBatches] at hbt
    split at hbt
    · next hsz =>
      simp at hbt
      rcases hbt with rfl | hbt
      · simp at hsz ⊢; omega
      · exact ih [] (by simp; omega) bt hbt
    · next hsz => exact ih (acc ++ [e]) (by simp at hsz ⊢; omega) bt hbt

/-- The remaining partial batch is always below batchSize. -/
theorem sizeBatches_rem_len (B : Nat) :
    ∀ (l acc : List Entry), acc.length < B → (sizeBatches B acc l).2.length < B := by
  intro l
  induction l with
  | nil => intro acc hacc; simpa [sizeBatches] using hacc
  | cons e rest ih =>
    intro acc hacc
    simp only [sizeBatches]
    split
    · exact ih [] (by simp; omega)
    · next hsz => exact ih (acc ++ [e]) (by simp at hsz ⊢; omega)

/-- The number of size-triggered batches is the integer quotient of the
processed entries (plus the initial accumulator) by batchSize. -/
theorem sizeBatches_count (B : Nat) :
    ∀ (l acc : List Entry), acc.length < B →
      (sizeBatches B acc l).1.length = (acc.length + l.length) / B := by
  intro l
  induction l with
  | nil =>
    intro acc hacc
    simp [sizeBatches, Nat.div_eq_of_lt hacc]
  | cons e rest ih =>
    intro acc hacc
    simp only [sizeBatches]
    split
    · next hsz =>
      have hlen : acc.length + 1 = B := by simp at hsz; omega
      have h2 : acc.length + (e :: rest).length = rest.length + B := by simp; omega
      rw [h2]
      have hpos : 0 < B := by omega
      rw [Nat.add_div_right _ hpos]
      have h3 := ih [] (by simp; omega)
      simp at h3 ⊢
      omega
    · next hsz =>
      rw [ih (acc ++ [e]) (by simp at hsz ⊢; omega)]
      congr 1
      simp
      omega

/-- The length of the remaining partial batch is the remainder modulo
batchSize. -/
theorem sizeBatches_rem_mod (B : Nat) :
    ∀ (l acc : List Entry), acc.length < B →
      (sizeBatches B acc l).2.length = (acc.length + l.length) % B := by
  intro l
  induction l with
  | nil =>
    intro acc hacc
    simp [sizeBatches, Nat.mod_eq_of_lt hacc]
  | cons e rest ih =>
    intro acc hacc
    simp only [sizeBatches]
    split
    · next hsz =>
      have hlen : acc.length + 1 = B := by simp at hsz; omega
      have h2 : acc.length + (e :: rest).length = B + rest.length := by simp; omega
      rw [h2, Nat.add_mod_left]
      have h3 := ih [] (by simp; omega)
      simpa using h3
    · next hsz =>
      rw [ih (acc ++ [e]) (by simp at hsz ⊢; omega)]
      congr 1
      simp
      omega

/-- Quotient-plus-partial equals the rounded-up quotient. -/
theorem div_add_ite_eq_ceil (N B : Nat) (hB : 1 ≤ B) :
    N / B + (if N % B = 0 then 0 else 1) = (N + B - 1) / B := by
  have hpos : 0 < B := hB
  have hmod := Nat.div_add_mod N B
  set q := N / B with hq
  set r := N % B with hr
  have hrlt : r < B := Nat.mod_lt _ hpos
  by_cases h0 : r = 0
  · rw [if_pos h0, Nat.add_zero]
    have hN : N = B * q := by omega
    have h1 : N + B - 1 = B * q + (B - 1) := by omega
    rw [h1, Nat.mul_add_div hpos]
    have h2 : (B - 1) / B = 0 := Nat.div_eq_of_lt (by omega)
    omega
  · simp only [if_neg h0]
    have : N + B - 1 = B * q + (r - 1 + B) := by omega
    rw [this, Nat.mul_add_div hpos, Nat.add_div_right _ hpos]
    have : (r - 1) / B = 0 := Nat.div_eq_of_lt (by omega)
    omega

/-- Counterexample to C3: an entry with an empty message is successfully
enqueued but silently skipped by the worker, so the total delivered over
the lifetime (0) differs from the total successfully enqueued (1). -/
theorem claim_c3_counterexample :
    (run 1 [RunEvent.enqueue ⟨"info", "", 2, []⟩, RunEvent.cancel] initState).enqueued.length = 1
  ∧ (joinFlushed (run 1 [RunEvent.enqueue ⟨"info", "", 2, []⟩, RunEvent.cancel]
        initState).flushed).length = 0 := by decide

/-- Amended C3: when the run loop observes the shutdown signal it drains
the ingress channel, performs at most one final flush under a fresh
10-second context (never the cancelled caller context), and returns the
cancellation error; the entries delivered across the lifetime are exactly
the successfully enqueued entries that carry a non-empty message (in
order), empty-message entries being silently discarded. -/
theorem claim_c3_amended (B : Nat) (evs : List RunEvent) :
    (run B (evs ++ [RunEvent.cancel]) initState).cancelled = true
  ∧ (run B (evs ++ [RunEvent.cancel]) initState).acc = []
  ∧ (run B (evs ++ [RunEvent.cancel]) initState).buffer = []
  ∧ joinFlushed (run B (evs ++ [RunEvent.cancel]) initState).flushed
      = filterMsg (run B (evs ++ [RunEvent.cancel]) initState).enqueued
  ∧ (∀ rec ∈ (run B (evs ++ [RunEvent.cancel]) initState).flushed,
        rec.cause = .byShutdown →
          rec.ctx = .freshTimeout 10000 ∧ rec.ctx ≠ .caller) := by
  have hc := run_cancel_last B evs initState
  obtain ⟨δ, h1, h2, h3⟩ := run_conservation B (evs ++ [RunEvent.cancel]) initState
  obtain ⟨hacc, hbuf⟩ := h3 hc
  refine ⟨hc, hacc, hbuf, ?_, ?_⟩
  · have hδ : (run B (evs ++ [RunEvent.cancel]) initState).enqueued = δ := by
      simpa [initState] using h1
    rw [hδ]
    have h2' := h2
    simp only [rlive, live, hacc, hbuf] at h2'
    simpa [initState, joinFlushed, filterMsg] using h2'
  · intro rec hrec hcause
    have hctx := run_shutdownCtx B (evs ++ [RunEvent.cancel]) initState
      (by simp [initState]) rec hrec hcause
    exact ⟨hctx, by rw [hctx]; intro h; cases h⟩

/-- Witness for the amended C3 at batch size 1 and the empty schedule. -/
theorem claim_c3_amended_witness :
    (run 1 ([] ++ [RunEvent.cancel]) initState).cancelled = true :=
  (claim_c3_amended 1 []).1

/-- Claim C4: pumping N accepted entries through the batch client with
batch size B and no ticker event flushes them in ceil(N/B) batches; every
batch except possibly the last holds exactly B entries, none is empty or
larger than B, and concatenating the batches in flush order gives back the
entries in arrival order. -/
theorem claim_c4_batching (B : Nat) (hB : 1 ≤ B) (l : List Entry)
    (hm : ∀ e ∈ l, 0 < e.message.length) :
    joinFlushed (run B (pump l ++ [RunEvent.cancel]) initState).flushed = l
  ∧ (run B (pump l ++ [RunEvent.cancel]) initState).flushed.length = (l.length + B - 1) / B
  ∧ (∀ rec ∈ (run B (pump l ++ [RunEvent.cancel]) initState).flushed,
        0 < rec.batch.length ∧ rec.batch.length ≤ B)
  ∧ (∀ rec ∈ (run B (pump l ++ [RunEvent.cancel]) initState).flushed.dropLast,
        rec.batch.length = B) := by
  rw [run_pump B hB l initState rfl (by simp [initState]; omega) hm]
  have hacc0 : (initState.acc).length < B := by simp [initState]; omega
  have hflat := sizeBatches_flatten B l initState.acc
  have hfull := sizeBatches_full_len B l initState.acc hacc0
  have hrem := sizeBatches_rem_len B l initState.acc hacc0
  have hcount := sizeBatches_count B l initState.acc hacc0
  have hmod := sizeBatches_rem_mod B l initState.acc hacc0
  simp only [initState] at hflat hfull hrem hcount hmod ⊢
  have hmod' : (sizeBatches B [] l).2.length = l.length % B := by simpa using hmod
  have hcount' : (sizeBatches B [] l).1.length = l.length / B := by simpa using hcount
  refine ⟨?_, ?_, ?_, ?_⟩
  · simp only [List.nil_append]
    rw [joinFlushed_append, joinFlushed_map_bySize, joinFlushed_shutdown_tail]
    simpa using hflat
  · simp only [List.nil_append, List.length_append, List.length_map]
    rw [hcount', ← div_add_ite_eq_ceil l.length B hB]
    congr 1
    rw [hmod']
    split
    · next hz => simp [hz]
    · next hz => simp [hz]
  · intro rec hrec
    rcases List.mem_append.mp hrec with hmem | hmem
    · obtain ⟨bt, hbt, rfl⟩ := List.mem_map.mp hmem
      have := hfull bt hbt
      constructor <;> simp [this] <;> omega
    · split at hmem
      · simp at hmem
      · have : rec = ⟨.byShutdown, .freshTimeout 10000, (sizeBatches B [] l).2⟩ := by
          simpa using hmem
        subst this
        next hz => exact ⟨by simpa using Nat.pos_of_ne_zero hz, by simpa using Nat.le_of_lt hrem⟩
  · intro rec hrec
    split at hrec
    · simp only [List.append_nil] at hrec
      have hsub : rec ∈ List.map (fun bt => (⟨.bySize, .caller, bt⟩ : FlushRec))
          (sizeBatches B [] l).1 := List.dropLast_subset _ hrec
      obtain ⟨bt, hbt, rfl⟩ := List.mem_map.mp hsub
      simpa using hfull bt hbt
    · rw [List.dropLast_concat] at hrec
      obtain ⟨bt, hbt, rfl⟩ := List.mem_map.mp hrec
      simpa using hfull bt hbt

/-- Witness for C4: one entry, batch size 1: a single full batch in
arrival order. -/
theorem claim_c4_batching_witness :
    joinFlushed (run 1 (pump [⟨"info", "m1", 0, []⟩] ++ [RunEvent.cancel])
      initState).flushed = [⟨"info", "m1", 0, []⟩] :=
  (claim_c4_batching 1 (by decide) [⟨"info", "m1", 0, []⟩] (by decide)).1

/-- Counterexample to C5: with batch size 1 and two entries still in the
channel at shutdown, the single final flush hands 2 entries — more than
BatchSize — to the delivery client in one call. -/
theorem claim_c5_counterexample :
    (run 1 [RunEvent.enqueue ⟨"info", "m1", 0, []⟩, RunEvent.enqueue ⟨"error", "m2", 1, []⟩,
        RunEvent.cancel] initState).flushed
      = [⟨.byShutdown, .freshTimeout 10000, [⟨"info", "m1", 0, []⟩, ⟨"error", "m2", 1, []⟩]⟩]
  ∧ ¬ (∀ rec ∈ (run 1 [RunEvent.enqueue ⟨"info", "m1", 0, []⟩,
        RunEvent.enqueue ⟨"error", "m2", 1, []⟩, RunEvent.cancel] initState).flushed,
          rec.batch.length ≤ 1) := by decide

/-- Amended C5: every batch handed to the delivery client is non-empty
(flushing an empty accumulator performs no delivery call); a
size-triggered flush passes exactly BatchSize entries and a
timer-triggered flush fewer than BatchSize, but the final shutdown flush
may exceed BatchSize: it is bounded by 3 * BatchSize - 1 (an accumulator
below BatchSize plus a drained channel of capacity 2 * BatchSize). -/
theorem claim_c5_amended (B : Nat) (hB : 1 ≤ B) (evs : List RunEvent) :
    (∀ (f : List FlushRec) (c : FlushCause) (x : FlushCtx), flush f c x [] = f)
  ∧ (∀ rec ∈ (run B evs initState).flushed, flushRecOK B rec) := by
  refine ⟨fun f c x => by simp [flush], ?_⟩
  exact run_flushRecOK B hB evs initState (by simp [initState]; omega)
    (by simp [initState]) (by simp [initState])

/-- Witness for the amended C5: an empty flush is a no-op. -/
theorem claim_c5_amended_witness : flush [] FlushCause.bySize FlushCtx.caller [] = [] :=
  (claim_c5_amended 1 (by decide) []).1 [] FlushCause.bySize FlushCtx.caller

/-- The failure the batch-client IngestLogs can return (lines 69-73):
the caller context error, or the enqueue-timeout error. -/
inductive EnqueueErr where
  | ctxCancelled
  | bufferFullTimeout
deriving DecidableEq, Repr

/-- Has the caller context not yet been cancelled at time t? -/
def beforeCancel (cancelAt : Option Nat) (t : Nat) : Bool :=
  match cancelAt with
  | none => true
  | some c => t < c

/-- IngestLogs of the batch client (lines 63-77): one time.After window of
timeoutMs is created before the loop and shared by all entries. Each entry
comes with an oracle duration d giving how long its channel send blocks
(until the consumer makes room); the send completes at the running total
t + d. An entry is enqueued only if its send completes before both the
shared timeout and the cancellation; otherwise the earlier of cancellation
and timeout decides the returned error, and the loop stops with the
already-enqueued entries still in the channel. -/
def IngestLogs (timeoutMs : Nat) (cancelAt : Option Nat) :
    List (Entry × Nat) → Nat → List Entry → List Entry × Option EnqueueErr
  | [], _t, buf => (buf, none)
  | (e, d) :: rest, t, buf =>
      if t + d < timeoutMs ∧ beforeCancel cancelAt (t + d) = true then
        IngestLogs timeoutMs cancelAt rest (t + d) (buf ++ [e])
      else
        match cancelAt with
        | some c =>
            if c < timeoutMs then (buf, some .ctxCancelled)
            else (buf, some .bufferFullTimeout)
        | none => (buf, some .bufferFullTimeout)

/-- Modelled from the claim under test, NOT from the source: the
alternative reading in which each entry would get a fresh timeout window
of its own, for comparison with IngestLogs, which shares one window
across the whole slice. -/
def ingestFreshTimeoutEach (timeoutMs : Nat) :
    List (Entry × Nat) → List Entry → List Entry × Option EnqueueErr
  | [], buf => (buf, none)
  | (e, d) :: rest, buf =>
      if d < timeoutMs then ingestFreshTimeoutEach timeoutMs rest (buf ++ [e])
      else (buf, some .bufferFullTimeout)

/-- Claim C10: the batch-client IngestLogs applies one shared timeout
window to the whole slice (two sends of 60ms each fail against a 100ms
window, though each would pass a fresh per-entry window), and the call is
not atomic on failure: the channel ends holding the old contents plus
exactly the prefix of entries enqueued before the failure, the suffix is
not enqueued, the call succeeds exactly when the whole slice was enqueued,
and an enqueued prefix left in the channel is still delivered by the run
loop at shutdown. -/
theorem claim_c10_shared_timeout :
    (∀ (timeoutMs : Nat) (cancelAt : Option Nat) (eds : List (Entry × Nat))
        (t : Nat) (buf : List Entry),
        ∃ k, k ≤ eds.length
          ∧ (IngestLogs timeoutMs cancelAt eds t buf).1 = buf ++ (eds.map Prod.fst).take k
          ∧ ((IngestLogs timeoutMs cancelAt eds t buf).2 = none ↔ k = eds.length))
  ∧ (IngestLogs 100 none [(⟨"info", "m1", 0, []⟩, 60), (⟨"error", "m2", 1, []⟩, 60)] 0 []
      = ([⟨"info", "m1", 0, []⟩], some .bufferFullTimeout))
  ∧ (ingestFreshTimeoutEach 100 [(⟨"info", "m1", 0, []⟩, 60), (⟨"error", "m2", 1, []⟩, 60)] []
      = ([⟨"info", "m1", 0, []⟩, ⟨"error", "m2", 1, []⟩], none))
  ∧ joinFlushed (run 1 [RunEvent.cancel]
      ⟨[⟨"info", "m1", 0, []⟩], [], [], [⟨"info", "m1", 0, []⟩]⟩).flushed
      = [⟨"info", "m1", 0, []⟩] := by
  refine ⟨?_, by decide, by decide, by decide⟩
  intro timeoutMs cancelAt eds
  induction eds with
  | nil => intro t buf; exact ⟨0, by simp [IngestLogs]⟩
  | cons ed rest ih =>
    intro t buf
    obtain ⟨e, d⟩ := ed
    by_cases h : t + d < timeoutMs ∧ beforeCancel cancelAt (t + d) = true
    · obtain ⟨k, hk, h1, h2⟩ := ih (t + d) (buf ++ [e])
      refine ⟨k + 1, by simp; omega, ?_, ?_⟩
      · simp only [IngestLogs, if_pos h]
        rw [h1]
        simp
      · simp only [IngestLogs, if_pos h]
        rw [h2]
        simp
    · refine ⟨0, by simp, ?_, ?_⟩
      · simp only [IngestLogs, if_neg h]
        cases cancelAt with
        | none => simp
        | some c => by_cases hc : c < timeoutMs <;> simp [hc]
      · simp only [IngestLogs, if_neg h]
        cases cancelAt with
        | none => simp
        | some c => by_cases hc : c < timeoutMs <;> simp [hc]

end BatchClient

end Components

namespace Logging

/-- An slog severity level, as its numeric value (slog.LevelDebug = -4,
LevelInfo = 0, LevelWarn = 4, LevelError = 8). -/
abbrev Level := Int

/-- slog.LevelDebug. -/
def levelDebug : Level := -4

/-- slog.LevelInfo. -/
def levelInfo : Level := 0

/-- slog.LevelWarn. -/
def levelWarn : Level := 4

/-- slog.LevelError. -/
def levelError : Level := 8

/-- The four levels the rate-limit handler allocates buckets and drop
counters for (ratelimit_handler.go lines 25-41). -/
def standardLevels : List Level := [levelDebug, levelInfo, levelWarn, levelError]

/-- The part of an slog.Record the handlers under study inspect: its level
and message. -/
structure Record where
  level : Level
  message : String
deriving DecidableEq, Repr

namespace RateLimitHandler

/-- Modelled from the golang.org/x/time/rate dependency: one token-bucket
Allow call. The bucket is abstracted to its current token count; Allow
succeeds and consumes one token when any is available, and fails leaving
the bucket unchanged otherwise. Refill over time is not modelled. -/
def allowToken : Nat → Bool × Nat
  | 0 => (false, 0)
  | n + 1 => (true, n)

/-- The mutable state of a RateLimitHandler: the per-level token buckets
(rt) and the per-level dropped-logs counters. -/
structure RLState where
  tokens : Level → Nat
  dropped : Level → Nat

/-- Enabled (ratelimit_handler.go lines 55-67): with no registered next
handler, always true; otherwise delegate to next first and refuse if it
refuses; otherwise try to take a token from the level's bucket, and on
failure count the drop for that level and refuse. Returns the decision
and the updated state. -/
def Enabled (next : Option (Level → Bool)) (s : RLState) (level : Level) : Bool × RLState :=
  match next with
  | none => (true, s)
  | some nextEnabled =>
      if nextEnabled level = false then (false, s)
      else
        match allowToken (s.tokens level) with
        | (false, _) =>
            (false, { s with dropped := Function.update s.dropped level (s.dropped level + 1) })
        | (true, remaining) =>
            (true, { s with tokens := Function.update s.tokens level remaining })

/-- Handle (ratelimit_handler.go lines 69-74): nil when no next handler is
registered, otherwise exactly the next handler's outcome; the handler
itself touches no bucket and no counter. -/
def Handle (next : Option (Record → Option String)) (record : Record) : Option String :=
  match next with
  | none => none
  | some h => h record

end RateLimitHandler

namespace ExportHandler

/-- ExportHandlerConfig (export_handler.go lines 8-11). -/
structure Config where
  minLevel : Level
  bufferSize : Nat
deriving DecidableEq, Repr

/-- The defaulting performed by NewExportHandler (lines 13-23):
BufferSize == 0 becomes 1000. -/
def NewExportHandler (cfg : Config) : Config :=
  if cfg.bufferSize = 0 then { cfg with bufferSize := 1000 } else cfg

/-- Handle (export_handler.go lines 49-60): when the record's level is at
or above the configured minimum, a non-blocking send into the bounded
channel (modelled as a list bounded by bufferSize) — dropped silently when
the channel is full; in every case the record is forwarded to the next
handler (nil outcome when none is registered). Returns the new channel
contents and the returned error. -/
def Handle (cfg : Config) (next : Option (Record → Option String))
    (queue : List Record) (record : Record) : List Record × Option String :=
  let queue' :=
    if cfg.minLevel ≤ record.level then
      if queue.length < cfg.bufferSize then queue ++ [record] else queue
    else queue
  (queue',
   match next with
   | none => none
   | some h => h record)

end ExportHandler

/-- Claim C7: for each of the four severity levels, Enabled first
delegates to the downstream chain; a downstream refusal returns false
with no token consumed and no counter changed; otherwise it takes one
token from that level's bucket and returns true on success, and on
failure increments exactly that level's drop counter and returns false,
every other level's bucket and counter staying unchanged. -/
theorem claim_c7_enabled (f : Level → Bool) (s : RateLimitHandler.RLState) (level : Level)
    (hl : level ∈ standardLevels) :
    (f level = false → RateLimitHandler.Enabled (some f) s level = (false, s))
  ∧ (f level = true → 0 < s.tokens level →
        (RateLimitHandler.Enabled (some f) s level).1 = true
      ∧ (RateLimitHandler.Enabled (some f) s level).2.tokens level = s.tokens level - 1
      ∧ (∀ l, l ≠ level → (RateLimitHandler.Enabled (some f) s level).2.tokens l = s.tokens l)
      ∧ (RateLimitHandler.Enabled (some f) s level).2.dropped = s.dropped)
  ∧ (f level = true → s.tokens level = 0 →
        (RateLimitHandler.Enabled (some f) s level).1 = false
      ∧ (RateLimitHandler.Enabled (some f) s level).2.dropped level = s.dropped level + 1
      ∧ (∀ l, l ≠ level → (RateLimitHandler.Enabled (some f) s level).2.dropped l = s.dropped l)
      ∧ (RateLimitHandler.Enabled (some f) s level).2.tokens = s.tokens) := by
  refine ⟨?_, ?_, ?_⟩
  · intro hf
    simp [RateLimitHandler.Enabled, hf]
  · intro hf ht
    obtain ⟨n, hn⟩ : ∃ n, s.tokens level = n + 1 := ⟨s.tokens level - 1, by omega⟩
    simp only [RateLimitHandler.Enabled, hf, hn, RateLimitHandler.allowToken]
    refine ⟨by simp, by simp [Function.update_same], ?_, by simp⟩
    intro l hne
    simp [Function.update_noteq hne]
  · intro hf ht
    simp only [RateLimitHandler.Enabled, hf, ht, RateLimitHandler.allowToken]
    refine ⟨by simp, by simp [Function.update_same], ?_, by simp⟩
    intro l hne
    simp [Function.update_noteq hne]

/-- Witness for C7: a bucket holding one token at info level admits the
record, consuming the token and leaving the counters untouched. -/
theorem claim_c7_enabled_witness :
    (RateLimitHandler.Enabled (some fun _ => true)
      ⟨fun _ => 1, fun _ => 0⟩ levelInfo).1 = true :=
  ((claim_c7_enabled (fun _ => true) ⟨fun _ => 1, fun _ => 0⟩ levelInfo
      (by decide)).2.1 rfl (by decide)).1

/-- Claim C9: with no registered next handler the rate limit stage is
bypassed entirely: Enabled is true for every severity without consuming a
token or touching a counter, and Handle returns nil without any effect. -/
theorem claim_c9_no_next (s : RateLimitHandler.RLState) (level : Level) (record : Record) :
    RateLimitHandler.Enabled none s level = (true, s)
  ∧ RateLimitHandler.Handle none record = none := by
  exact ⟨rfl, rfl⟩

/-- Claim C8: the export stage enqueues the record exactly when its level
reaches the configured minimum and the channel has free capacity; a full
channel drops the record silently, with no error and no effect on the
returned outcome; and in every case the record is forwarded to the next
handler, the stage returning nil itself when none is registered. -/
theorem claim_c8_handle (cfg : ExportHandler.Config)
    (next : Option (Record → Option String)) (queue : List Record) (record : Record) :
    ((ExportHandler.Handle cfg next queue record).1 = queue ++ [record]
        ↔ cfg.minLevel ≤ record.level ∧ queue.length < cfg.bufferSize)
  ∧ (¬ (cfg.minLevel ≤ record.level ∧ queue.length < cfg.bufferSize) →
        (ExportHandler.Handle cfg next queue record).1 = queue)
  ∧ (next = none → (ExportHandler.Handle cfg next queue record).2 = none)
  ∧ (∀ h, next = some h → (ExportHandler.Handle cfg next queue record).2 = h record) := by
  have hlen : ¬ (queue = queue ++ [record]) := by
    intro h
    have := congrArg List.length h
    simp at this
  refine ⟨?_, ?_, ?_, ?_⟩
  · constructor
    · intro h
      by_cases h1 : cfg.minLevel ≤ record.level
      · by_cases h2 : queue.length < cfg.bufferSize
        · exact ⟨h1, h2⟩
        · simp only [ExportHandler.Handle, if_pos h1, if_neg h2] at h
          exact absurd h.symm (by simpa using hlen)
      · simp only [ExportHandler.Handle, if_neg h1] at h
        exact absurd h.symm (by simpa using hlen)
    · rintro ⟨h1, h2⟩
      simp [ExportHandler.Handle, h1, h2]
  · intro h
    simp only [ExportHandler.Handle]
    by_cases h1 : cfg.minLevel ≤ record.level
    · have h2 : ¬ queue.length < cfg.bufferSize := fun hc => h ⟨h1, hc⟩
      simp [h1, h2]
    · simp [h1]
  · intro h
    simp [ExportHandler.Handle, h]
  · intro h hn
    simp [ExportHandler.Handle, hn]

/-- Witness for C8: an info record against an info minimum and capacity 2
is enqueued into the empty channel. -/
theorem claim_c8_handle_witness :
    (ExportHandler.Handle ⟨0, 2⟩ none [] ⟨0, "m"⟩).1 = [] ++ [⟨0, "m"⟩] :=
  (claim_c8_handle ⟨0, 2⟩ none [] ⟨0, "m"⟩).1.mpr ⟨by decide, by decide⟩

end Logging

